import Mathlib

/-!
Shallow embedding of the sale-creation core of the POWER-ANALYZER
(IndieLisboa stock manager) backend.

The embedded code:
* `src/common/errors.ts` — the `AppErrorCode` enum, the error classes
  (`AppError` and its subclasses) and `requestErrorHandler`'s dispatch
  of an error object to an HTTP status (the dispatch switches on the
  error's *constructor*).
* `src/sales/salesController.ts` — `createSale`: duplicate-productId
  check, the repeatable-read transaction body (stock fetch joined with
  product price, validity check, seller lookup, sale-item construction
  with in-place stock decrement, sale creation, sale-item bulk insert,
  stock bulk upsert with `updateOnDuplicate: ["quantity"]`).
* `src/products` (products controller) — `updateProduct`, which updates
  only the product row (name/price/description).

Machine integers are modelled as `Int` (prices and quantities are small
integers; no JS number overflow is in scope).  The database state is a
record of row lists; the ORM calls become explicit list operations with
the same selection semantics (`findAll` with a `where` = filter in
storage order, `find` = first match, `bulkCreate` with
`updateOnDuplicate` = upsert keyed on the table's primary key).
A transaction that throws is a rollback: the pre-state is returned.
-/

namespace PowerAnalyzer

/-- `AppErrorCode` from `src/common/errors.ts`. -/
inductive AppErrorCode where
  | unspecified
  | tokenMissing
  | tokenExpired
  | tokenInvalid
  | privilege
  | reqFormat
  | notFound
  | duplicated
deriving DecidableEq, Repr

/-- The runtime class of an error object.  `appError` is the base class
`AppError` itself (as produced by `new AppError(...)`); the others are its
subclasses.  `thrownError` stands for any non-`AppError` exception thrown
by the underlying store (the `default` branch of the handler). -/
inductive ErrClass where
  | appError
  | badRequestError
  | authenticationError
  | forbiddenError
  | notFoundError
  | conflitError
  | thrownError
deriving DecidableEq, Repr

/-- An error value: its runtime class, its `code` field and its
`message` field. -/
structure AppErr where
  cls : ErrClass
  code : AppErrorCode
  message : String
deriving DecidableEq, Repr

/-- `requestErrorHandler` (`src/common/errors.ts`): the HTTP status sent
for an error, switching on the error's constructor.  A plain `AppError`
(base class) matches no case and falls to the `default` branch, which
sends a 500 "Unexpected error." response. -/
def requestErrorStatus : ErrClass → Nat
  | .badRequestError => 400
  | .authenticationError => 401
  | .forbiddenError => 403
  | .notFoundError => 404
  | .conflitError => 409
  | .appError => 500
  | .thrownError => 500

/-- `SaleStatus` from `saleModel.ts`. -/
inductive SaleStatus where
  | completed
  | pending
  | cancelled
deriving DecidableEq, Repr

/-- A row of the `product` table (the columns the sale path reads). -/
structure ProductRow where
  productId : String
  name : String
  description : String
  price : Int
deriving DecidableEq, Repr

/-- A row of the `stock` table, keyed by (productId, locationId). -/
structure StockRow where
  productId : String
  locationId : String
  quantity : Int
deriving DecidableEq, Repr

/-- A row of the `sale` table. -/
structure SaleRow where
  saleId : String
  sellerId : String
  locationId : String
  status : SaleStatus
  totalPrice : Int
deriving DecidableEq, Repr

/-- A row of the `sale_item` table. -/
structure SaleItemRow where
  saleId : String
  productId : String
  quantity : Int
  price : Int
  total : Int
deriving DecidableEq, Repr

/-- A row of the `user` table (the columns the sale path reads). -/
structure UserRow where
  userId : String
  name : String
deriving DecidableEq, Repr

/-- The persisted database state: one list per table, in storage order. -/
structure DBState where
  products : List ProductRow
  stocks : List StockRow
  users : List UserRow
  sales : List SaleRow
  saleItems : List SaleItemRow
deriving DecidableEq, Repr

/-- An element of `createSale`'s request body `list`. -/
structure CartItem where
  productId : String
  quantity : Int
deriving DecidableEq, Repr

/-- JavaScript `Array.prototype.lastIndexOf`: the largest index holding
the value, `-1` when absent. -/
def jsLastIndexOf : List String → String → Int
  | [], _ => -1
  | y :: ys, x =>
    let r := jsLastIndexOf ys x
    if 0 ≤ r then r + 1
    else if y = x then 0 else -1

/-- The duplicate check of `createSale`:
`productIds.some((id, idx) => productIds.lastIndexOf(id) != idx)`. -/
def hasRepeatedIds (ids : List String) : Bool :=
  ids.enum.any (fun p => jsLastIndexOf ids p.2 ≠ (p.1 : Int))

/-- One row of the `Stock.findAll` result inside the transaction: the raw
stock columns together with the eagerly joined `product.price` (absent
when the foreign product row does not exist). -/
structure FetchedStock where
  productId : String
  locationId : String
  quantity : Int
  price : Option Int
deriving DecidableEq, Repr

/-- The `Stock.findAll({where: {productId: productIds, locationId},
include: product.price})` read: the stock rows whose productId is in the
list and whose locationId matches, each joined with its product's price. -/
def findStocks (st : DBState) (productIds : List String) (locationId : String) :
    List FetchedStock :=
  (st.stocks.filter
      (fun s => productIds.contains s.productId && s.locationId == locationId)).map
    (fun s =>
      { productId := s.productId
        locationId := s.locationId
        quantity := s.quantity
        price := (st.products.find? (fun p => p.productId == s.productId)).map
          (fun p => p.price) })

/-- The validity check: every cart item finds a stock row and that row's
quantity is at least the requested quantity. -/
def stockValid (list : List CartItem) (stockResult : List FetchedStock) : Bool :=
  list.all (fun item =>
    match stockResult.find? (fun p => p.productId == item.productId) with
    | none => false
    | some stock => item.quantity ≤ stock.quantity)

/-- `stock.quantity -= item.quantity` on the first fetched row whose
productId matches (the object `find` returns). -/
def decrementFirst : List FetchedStock → String → Int → List FetchedStock
  | [], _, _ => []
  | r :: rs, pid, q =>
    if r.productId = pid then { r with quantity := r.quantity - q } :: rs
    else r :: decrementFirst rs pid q

/-- The `list.map` body of `createSale`: for each cart item, find its
fetched stock row (`!!`-asserted), read the joined product price
(`stock.product!!.price`), decrement the working copy's quantity, and
emit the sale-item attributes (`saleId` filled in later).  A failed
assertion (no row, or no joined product) is a thrown `TypeError`:
`none`. -/
def buildItems : List CartItem → List FetchedStock →
    Option (List SaleItemRow × List FetchedStock)
  | [], rows => some ([], rows)
  | item :: rest, rows =>
    match rows.find? (fun p => p.productId == item.productId) with
    | none => none
    | some stock =>
      match stock.price with
      | none => none
      | some price =>
        match buildItems rest (decrementFirst rows item.productId item.quantity) with
        | none => none
        | some (items, rowsF) =>
          some ({ saleId := ""
                  productId := item.productId
                  quantity := item.quantity
                  price := price
                  total := item.quantity * price } :: items, rowsF)

/-- One step of `Stock.bulkCreate(..., {updateOnDuplicate: ["quantity"]})`:
upsert a quantity keyed on (productId, locationId). -/
def upsertStock (stocks : List StockRow) (r : StockRow) : List StockRow :=
  if stocks.any (fun s => s.productId == r.productId && s.locationId == r.locationId) then
    stocks.map (fun s =>
      if s.productId == r.productId && s.locationId == r.locationId then
        { s with quantity := r.quantity }
      else s)
  else stocks ++ [r]

/-- The whole stock bulk write: upsert every working-copy row. -/
def upsertStocks (stocks : List StockRow) (rows : List FetchedStock) : List StockRow :=
  rows.foldl
    (fun acc r => upsertStock acc ⟨r.productId, r.locationId, r.quantity⟩) stocks

/-- The generated primary key of the next `Sale.create` (UUIDV4 in the
source; modelled as a fresh identifier). -/
def freshSaleId (st : DBState) : String :=
  "sale-" ++ toString st.sales.length

/-- `createSale` from `src/sales/salesController.ts`.  Returns the
post-call committed state together with the created sale and its items,
or the error object the call rejects with.  Error paths leave the state
untouched: the duplicate check fires before the transaction opens; the
conflict and not-found paths return before any mutation; a thrown
exception aborts (rolls back) the transaction. -/
def createSale (st : DBState) (sellerId locationId : String)
    (list : List CartItem) :
    DBState × Except AppErr (SaleRow × List SaleItemRow) :=
  let productIds := list.map (fun item => item.productId)
  if hasRepeatedIds productIds then
    (st, .error ⟨.badRequestError, .reqFormat, "Repeated productId not allowed."⟩)
  else
    let stockResult := findStocks st productIds locationId
    if !stockValid list stockResult then
      (st, .error ⟨.conflitError, .unspecified, "Can't create sale. Missing stock."⟩)
    else
      match st.users.find? (fun u => u.userId == sellerId) with
      | none => (st, .error ⟨.appError, .notFound, "User not found."⟩)
      | some _seller =>
        match buildItems list stockResult with
        | none => (st, .error ⟨.thrownError, .unspecified, "TypeError"⟩)
        | some (items0, finalRows) =>
          let totalPrice := items0.foldl (fun acc item => acc + item.total) 0
          let saleId := freshSaleId st
          let sale : SaleRow :=
            { saleId := saleId
              sellerId := sellerId
              locationId := locationId
              status := .completed
              totalPrice := totalPrice }
          let items := items0.map (fun item => { item with saleId := saleId })
          ({ st with
              sales := st.sales ++ [sale]
              saleItems := st.saleItems ++ items
              stocks := upsertStocks st.stocks finalRows },
            .ok (sale, items))

/-- `updateProduct` from the products controller: find the product by
primary key inside a repeatable-read transaction, `set` the given
name/price/description on it and save it.  Only the product row changes;
a missing product is a `NotFoundError`. -/
def updateProduct (st : DBState) (productId : String)
    (name : Option String) (price : Option Int) (description : Option String) :
    DBState × Except AppErr ProductRow :=
  match st.products.find? (fun p => p.productId == productId) with
  | none => (st, .error ⟨.notFoundError, .notFound, "Product not found"⟩)
  | some p =>
    let p' : ProductRow :=
      { p with
          name := name.getD p.name
          price := price.getD p.price
          description := description.getD p.description }
    ({ st with
        products := st.products.map
          (fun q => if q.productId == productId then p' else q) },
      .ok p')

/-- A `createSale` request, for reasoning about call sequences. -/
structure SaleRequest where
  sellerId : String
  locationId : String
  list : List CartItem
deriving DecidableEq, Repr

/-- The committed state after a sequence of `createSale` calls. -/
def runSales (st : DBState) (reqs : List SaleRequest) : DBState :=
  reqs.foldl (fun s r => (createSale s r.sellerId r.locationId r.list).1) st

/-- The committed quantity of a (productId, locationId) stock key. -/
def stockQty (st : DBState) (pid lid : String) : Option Int :=
  (st.stocks.find? (fun s => s.productId == pid && s.locationId == lid)).map
    (fun s => s.quantity)

/-- The catalog price of a product. -/
def catalogPrice (st : DBState) (pid : String) : Option Int :=
  (st.products.find? (fun p => p.productId == pid)).map (fun p => p.price)



/-! ### General list lemmas -/

/-- `find?` only depends on the pointwise behaviour of the predicate. -/
theorem find?_congr_pred {α : Type} {p q : α → Bool} (l : List α)
    (h : ∀ a, p a = q a) : l.find? p = l.find? q := by
  induction l with
  | nil => rfl
  | cons x xs ih => simp only [List.find?, h]; split <;> simp [ih]

/-- `find?` over a `filter` folds the filter into the predicate. -/
theorem find?_filter_eq {α : Type} (l : List α) (p g : α → Bool) :
    (l.filter g).find? p = l.find? (fun a => p a && g a) := by
  induction l with
  | nil => rfl
  | cons x xs ih =>
    by_cases hg : g x <;> by_cases hp : p x <;>
      simp [List.filter_cons, List.find?, hg, hp, ih]

/-! ### The duplicate-productId check -/

theorem jsLastIndexOf_of_not_mem {l : List String} {x : String} (h : x ∉ l) :
    jsLastIndexOf l x = -1 := by
  induction l with
  | nil => rfl
  | cons y ys ih =>
    simp only [List.mem_cons, not_or] at h
    simp only [jsLastIndexOf, ih h.2]
    norm_num
    exact fun hyx => absurd hyx.symm h.1

theorem le_jsLastIndexOf {l : List String} {x : String} {i : Nat}
    (h : l[i]? = some x) : (i : Int) ≤ jsLastIndexOf l x := by
  induction l generalizing i with
  | nil => simp at h
  | cons y ys ih =>
    cases i with
    | zero =>
      simp only [List.getElem?_cons_zero, Option.some_inj] at h
      subst h
      simp only [jsLastIndexOf]
      split
      · omega
      · simp
    | succ n =>
      simp only [List.getElem?_cons_succ] at h
      have hn := ih h
      simp only [jsLastIndexOf]
      split
      · omega
      · omega

theorem jsLastIndexOf_mem {l : List String} {x : String} (h : x ∈ l) :
    ∃ j : Nat, jsLastIndexOf l x = (j : Int) ∧ l[j]? = some x := by
  induction l with
  | nil => simp at h
  | cons y ys ih =>
    by_cases hmem : x ∈ ys
    · obtain ⟨j, hj, hget⟩ := ih hmem
      refine ⟨j + 1, ?_, by simpa using hget⟩
      simp only [jsLastIndexOf, hj]
      have : (0 : Int) ≤ (j : Int) := by positivity
      rw [if_pos this]
      push_cast
      ring
    · have hx : x = y := by
        rcases List.mem_cons.mp h with h1 | h2
        · exact h1
        · exact absurd h2 hmem
      refine ⟨0, ?_, by simp [hx]⟩
      simp only [jsLastIndexOf, jsLastIndexOf_of_not_mem hmem]
      norm_num [hx]

/-- The `some`/`lastIndexOf` duplicate test fires exactly on lists with a
repeated element. -/
theorem hasRepeatedIds_iff {ids : List String} :
    hasRepeatedIds ids = true ↔ ¬ ids.Nodup := by
  constructor
  · intro h hnodup
    rw [hasRepeatedIds, List.any_eq_true] at h
    obtain ⟨⟨i, x⟩, hmem, hne⟩ := h
    rw [List.mk_mem_enum_iff_getElem?] at hmem
    have hx : x ∈ ids := List.mem_iff_getElem?.mpr ⟨i, hmem⟩
    obtain ⟨j, hj, hget⟩ := jsLastIndexOf_mem hx
    have hij : i ≠ j := by
      intro hij
      subst hij
      simp [hj] at hne
    have hile : (i : Int) ≤ (j : Int) := hj ▸ le_jsLastIndexOf hmem
    have hilt : i < j := by omega
    have hjlen : j < ids.length := by
      by_contra hge
      rw [List.getElem?_eq_none (by omega)] at hget
      exact Option.noConfusion hget
    exact (List.nodup_iff_getElem?_ne_getElem?.mp hnodup i j hilt hjlen)
      (hmem.trans hget.symm)
  · intro h
    rw [List.nodup_iff_getElem?_ne_getElem?] at h
    push_neg at h
    obtain ⟨i, j, hij, hjlen, heq⟩ := h
    have hjget : ∃ x, ids[j]? = some x := by
      rw [List.getElem?_eq_getElem hjlen]
      exact ⟨_, rfl⟩
    obtain ⟨x, hx⟩ := hjget
    have higet : ids[i]? = some x := heq.trans hx
    rw [hasRepeatedIds, List.any_eq_true]
    refine ⟨(i, x), List.mk_mem_enum_iff_getElem?.mpr higet, ?_⟩
    have hle : (j : Int) ≤ jsLastIndexOf ids x := le_jsLastIndexOf hx
    simp only [decide_eq_true_eq]
    omega

theorem hasRepeatedIds_eq_false_iff {ids : List String} :
    hasRepeatedIds ids = false ↔ ids.Nodup := by
  rw [← Bool.not_eq_true, not_iff_comm, ← hasRepeatedIds_iff]

/-! ### Branch equations for `createSale` -/

theorem createSale_eq_of_dup {st : DBState} {sellerId locationId : String}
    {list : List CartItem}
    (hdup : hasRepeatedIds (list.map (fun item => item.productId)) = true) :
    createSale st sellerId locationId list =
      (st, .error ⟨.badRequestError, .reqFormat, "Repeated productId not allowed."⟩) := by
  simp [createSale, hdup]

theorem createSale_eq_of_invalid {st : DBState} {sellerId locationId : String}
    {list : List CartItem}
    (hdup : hasRepeatedIds (list.map (fun item => item.productId)) = false)
    (hval : stockValid list
      (findStocks st (list.map (fun item => item.productId)) locationId) = false) :
    createSale st sellerId locationId list =
      (st, .error ⟨.conflitError, .unspecified, "Can't create sale. Missing stock."⟩) := by
  simp [createSale, hdup, hval]

theorem createSale_eq_of_no_seller {st : DBState} {sellerId locationId : String}
    {list : List CartItem}
    (hdup : hasRepeatedIds (list.map (fun item => item.productId)) = false)
    (hval : stockValid list
      (findStocks st (list.map (fun item => item.productId)) locationId) = true)
    (hfind : st.users.find? (fun u => u.userId == sellerId) = none) :
    createSale st sellerId locationId list =
      (st, .error ⟨.appError, .notFound, "User not found."⟩) := by
  simp [createSale, hdup, hval, hfind]

theorem createSale_eq_of_build_none {st : DBState} {sellerId locationId : String}
    {list : List CartItem} {u : UserRow}
    (hdup : hasRepeatedIds (list.map (fun item => item.productId)) = false)
    (hval : stockValid list
      (findStocks st (list.map (fun item => item.productId)) locationId) = true)
    (hfind : st.users.find? (fun u => u.userId == sellerId) = some u)
    (hbuild : buildItems list
      (findStocks st (list.map (fun item => item.productId)) locationId) = none) :
    createSale st sellerId locationId list =
      (st, .error ⟨.thrownError, .unspecified, "TypeError"⟩) := by
  simp [createSale, hdup, hval, hfind, hbuild]

theorem createSale_eq_of_build_some {st : DBState} {sellerId locationId : String}
    {list : List CartItem} {u : UserRow} {items0 : List SaleItemRow}
    {finalRows : List FetchedStock}
    (hdup : hasRepeatedIds (list.map (fun item => item.productId)) = false)
    (hval : stockValid list
      (findStocks st (list.map (fun item => item.productId)) locationId) = true)
    (hfind : st.users.find? (fun u => u.userId == sellerId) = some u)
    (hbuild : buildItems list
      (findStocks st (list.map (fun item => item.productId)) locationId) =
        some (items0, finalRows)) :
    createSale st sellerId locationId list =
      ({ st with
          sales := st.sales ++
            [⟨freshSaleId st, sellerId, locationId, .completed,
              items0.foldl (fun acc item => acc + item.total) 0⟩]
          saleItems := st.saleItems ++
            items0.map (fun item => { item with saleId := freshSaleId st })
          stocks := upsertStocks st.stocks finalRows },
        .ok (⟨freshSaleId st, sellerId, locationId, .completed,
              items0.foldl (fun acc item => acc + item.total) 0⟩,
          items0.map (fun item => { item with saleId := freshSaleId st }))) := by
  simp [createSale, hdup, hval, hfind, hbuild]

/-- Inversion of a successful `createSale`. -/
theorem createSale_ok_inv {st st' : DBState} {sellerId locationId : String}
    {list : List CartItem} {sale : SaleRow} {items : List SaleItemRow}
    (h : createSale st sellerId locationId list = (st', .ok (sale, items))) :
    hasRepeatedIds (list.map (fun item => item.productId)) = false ∧
    stockValid list
      (findStocks st (list.map (fun item => item.productId)) locationId) = true ∧
    (∃ u, st.users.find? (fun u => u.userId == sellerId) = some u) ∧
    ∃ items0 finalRows,
      buildItems list
        (findStocks st (list.map (fun item => item.productId)) locationId) =
          some (items0, finalRows) ∧
      sale = ⟨freshSaleId st, sellerId, locationId, .completed,
        items0.foldl (fun acc item => acc + item.total) 0⟩ ∧
      items = items0.map (fun item => { item with saleId := freshSaleId st }) ∧
      st' = { st with
        sales := st.sales ++ [sale]
        saleItems := st.saleItems ++ items
        stocks := upsertStocks st.stocks finalRows } := by
  by_cases hdup : hasRepeatedIds (list.map (fun item => item.productId)) = true
  · rw [createSale_eq_of_dup hdup] at h
    simp at h
  · rw [Bool.not_eq_true] at hdup
    by_cases hval : stockValid list
        (findStocks st (list.map (fun item => item.productId)) locationId) = true
    · cases hfind : st.users.find? (fun u => u.userId == sellerId) with
      | none =>
        rw [createSale_eq_of_no_seller hdup hval hfind] at h
        simp at h
      | some u =>
        cases hbuild : buildItems list
            (findStocks st (list.map (fun item => item.productId)) locationId) with
        | none =>
          rw [createSale_eq_of_build_none hdup hval hfind hbuild] at h
          simp at h
        | some pr =>
          obtain ⟨items0, finalRows⟩ := pr
          rw [createSale_eq_of_build_some hdup hval hfind hbuild] at h
          simp only [Prod.mk.injEq, Except.ok.injEq] at h
          obtain ⟨hst, hsale, hitems⟩ := h
          subst hsale
          subst hitems
          exact ⟨hdup, hval, ⟨u, rfl⟩, items0, finalRows, rfl, rfl, rfl, hst.symm⟩
    · rw [Bool.not_eq_true] at hval
      rw [createSale_eq_of_invalid hdup hval] at h
      simp at h

/-- On every error outcome the committed state is the pre-call state. -/
theorem createSale_fst_of_error {st : DBState} {sellerId locationId : String}
    {list : List CartItem} {e : AppErr}
    (h : (createSale st sellerId locationId list).2 = .error e) :
    (createSale st sellerId locationId list).1 = st := by
  by_cases hdup : hasRepeatedIds (list.map (fun item => item.productId)) = true
  · rw [createSale_eq_of_dup hdup]
  · rw [Bool.not_eq_true] at hdup
    by_cases hval : stockValid list
        (findStocks st (list.map (fun item => item.productId)) locationId) = true
    · cases hfind : st.users.find? (fun u => u.userId == sellerId) with
      | none => rw [createSale_eq_of_no_seller hdup hval hfind]
      | some u =>
        cases hbuild : buildItems list
            (findStocks st (list.map (fun item => item.productId)) locationId) with
        | none => rw [createSale_eq_of_build_none hdup hval hfind hbuild]
        | some pr =>
          obtain ⟨items0, finalRows⟩ := pr
          rw [createSale_eq_of_build_some hdup hval hfind hbuild] at h
          simp at h
    · rw [Bool.not_eq_true] at hval
      rw [createSale_eq_of_invalid hdup hval]

/-! ### Working-copy decrement and sale-item construction -/

theorem mem_decrementFirst {rows : List FetchedStock} {pid : String} {q : Int}
    {r' : FetchedStock} (h : r' ∈ decrementFirst rows pid q) :
    r' ∈ rows ∨ ∃ r ∈ rows, r' = { r with quantity := r.quantity - q } := by
  induction rows with
  | nil => simp [decrementFirst] at h
  | cons y ys ih =>
    by_cases hy : y.productId = pid
    · rw [decrementFirst, if_pos hy] at h
      rcases List.mem_cons.mp h with h1 | h2
      · exact Or.inr ⟨y, List.mem_cons_self .., h1⟩
      · exact Or.inl (List.mem_cons_of_mem _ h2)
    · rw [decrementFirst, if_neg hy] at h
      rcases List.mem_cons.mp h with h1 | h2
      · exact Or.inl (h1 ▸ List.mem_cons_self ..)
      · rcases ih h2 with h3 | ⟨r, hr, hr'⟩
        · exact Or.inl (List.mem_cons_of_mem _ h3)
        · exact Or.inr ⟨r, List.mem_cons_of_mem _ hr, hr'⟩

theorem find?_decrementFirst_self (rows : List FetchedStock) (pid : String) (q : Int) :
    (decrementFirst rows pid q).find? (fun p => p.productId == pid) =
      (rows.find? (fun p => p.productId == pid)).map
        (fun r => { r with quantity := r.quantity - q }) := by
  induction rows with
  | nil => rfl
  | cons y ys ih =>
    by_cases hy : y.productId = pid
    · rw [decrementFirst, if_pos hy]
      rw [List.find?_cons_of_pos _ (by simpa using hy),
        List.find?_cons_of_pos _ (by simpa using hy)]
      rfl
    · rw [decrementFirst, if_neg hy]
      rw [List.find?_cons_of_neg _ (by simpa using hy),
        List.find?_cons_of_neg _ (by simpa using hy), ih]

theorem find?_decrementFirst_ne (rows : List FetchedStock) {pid pid' : String}
    (q : Int) (hne : pid' ≠ pid) :
    (decrementFirst rows pid q).find? (fun p => p.productId == pid') =
      rows.find? (fun p => p.productId == pid') := by
  induction rows with
  | nil => rfl
  | cons y ys ih =>
    by_cases hy : y.productId = pid
    · rw [decrementFirst, if_pos hy]
      have hnot : (y.productId == pid') = false := by
        simp only [beq_eq_false_iff_ne, ne_eq, hy]
        exact fun h => hne h.symm
      simp only [List.find?, hnot]
    · rw [decrementFirst, if_neg hy]
      by_cases hy' : y.productId = pid'
      · simp only [List.find?, show (y.productId == pid') = true by simpa using hy']
      · simp only [List.find?, show (y.productId == pid') = false by simpa using hy', ih]

theorem decrementFirst_shape (rows : List FetchedStock) (pid : String) (q : Int) :
    (decrementFirst rows pid q).map (fun r => (r.productId, r.locationId, r.price)) =
      rows.map (fun r => (r.productId, r.locationId, r.price)) := by
  induction rows with
  | nil => rfl
  | cons y ys ih =>
    by_cases hy : y.productId = pid
    · rw [decrementFirst, if_pos hy]
      simp
    · rw [decrementFirst, if_neg hy]
      simp [ih]

theorem buildItems_final_shape {list : List CartItem} {rows final : List FetchedStock}
    {items : List SaleItemRow} (h : buildItems list rows = some (items, final)) :
    final.map (fun r => (r.productId, r.locationId, r.price)) =
      rows.map (fun r => (r.productId, r.locationId, r.price)) := by
  induction list generalizing rows items with
  | nil =>
    rw [buildItems] at h
    obtain ⟨h1, h2⟩ := Prod.mk.injEq .. ▸ Option.some_inj.mp h
    rw [h2]
  | cons item rest ih =>
    rw [buildItems] at h
    split at h
    · exact Option.noConfusion h
    · split at h
      · exact Option.noConfusion h
      · split at h
        · exact Option.noConfusion h
        · next stock _ price _ items' final' hrest =>
          simp only [Option.some_inj, Prod.mk.injEq] at h
          obtain ⟨hitems, hfinal⟩ := h
          subst hfinal
          rw [ih hrest, decrementFirst_shape]

theorem buildItems_cons_inv {item : CartItem} {rest : List CartItem}
    {rows final : List FetchedStock} {items : List SaleItemRow}
    (h : buildItems (item :: rest) rows = some (items, final)) :
    ∃ stock price items',
      rows.find? (fun p => p.productId == item.productId) = some stock ∧
      stock.price = some price ∧
      buildItems rest (decrementFirst rows item.productId item.quantity) =
        some (items', final) ∧
      items = ⟨"", item.productId, item.quantity, price,
        item.quantity * price⟩ :: items' := by
  rw [buildItems] at h
  split at h
  · exact Option.noConfusion h
  · next x stock hfind =>
    split at h
    · exact Option.noConfusion h
    · next y price hprice =>
      split at h
      · exact Option.noConfusion h
      · next z items' final' hrest =>
        simp only [Option.some_inj, Prod.mk.injEq] at h
        obtain ⟨hitems, hfinal⟩ := h
        exact ⟨stock, price, items', hfind, hprice, hfinal ▸ hrest, hitems.symm⟩

theorem all_congr_mem {α : Type} {l : List α} {p q : α → Bool}
    (h : ∀ a ∈ l, p a = q a) : l.all p = l.all q := by
  induction l with
  | nil => rfl
  | cons x xs ih =>
    simp only [List.all_cons, h x (List.mem_cons_self ..),
      ih (fun a ha => h a (List.mem_cons_of_mem _ ha))]

theorem mem_decrementFirst_of_find? {rows : List FetchedStock} {pid : String}
    {q : Int} {stock r' : FetchedStock}
    (hfind : rows.find? (fun p => p.productId == pid) = some stock)
    (h : r' ∈ decrementFirst rows pid q) :
    r' ∈ rows ∨ r' = { stock with quantity := stock.quantity - q } := by
  induction rows with
  | nil => simp [decrementFirst] at h
  | cons y ys ih =>
    by_cases hy : y.productId = pid
    · rw [List.find?_cons_of_pos _ (by simpa using hy)] at hfind
      obtain rfl := Option.some_inj.mp hfind
      rw [decrementFirst, if_pos hy] at h
      rcases List.mem_cons.mp h with h1 | h2
      · exact Or.inr h1
      · exact Or.inl (List.mem_cons_of_mem _ h2)
    · rw [List.find?_cons_of_neg _ (by simpa using hy)] at hfind
      rw [decrementFirst, if_neg hy] at h
      rcases List.mem_cons.mp h with h1 | h2
      · exact Or.inl (h1 ▸ List.mem_cons_self ..)
      · rcases ih hfind h2 with h3 | h4
        · exact Or.inl (List.mem_cons_of_mem _ h3)
        · exact Or.inr h4

theorem stockValid_cons_inv {item : CartItem} {rest : List CartItem}
    {rows : List FetchedStock} (h : stockValid (item :: rest) rows = true) :
    (∃ stock, rows.find? (fun p => p.productId == item.productId) = some stock ∧
      item.quantity ≤ stock.quantity) ∧ stockValid rest rows = true := by
  rw [stockValid, List.all_cons, Bool.and_eq_true] at h
  obtain ⟨hhead, htail⟩ := h
  refine ⟨?_, htail⟩
  cases hfind : rows.find? (fun p => p.productId == item.productId) with
  | none => rw [hfind] at hhead; exact Bool.noConfusion hhead
  | some stock =>
    rw [hfind] at hhead
    simp only [decide_eq_true_eq] at hhead
    exact ⟨stock, rfl, hhead⟩

theorem buildItems_items_spec {f : String → Option Int}
    {list : List CartItem} {rows final : List FetchedStock} {items : List SaleItemRow}
    (hP : ∀ r ∈ rows, r.price = f r.productId)
    (h : buildItems list rows = some (items, final)) :
    ∀ it ∈ items, it.total = it.quantity * it.price ∧
      f it.productId = some it.price ∧
      ∃ ci ∈ list, it.productId = ci.productId ∧ it.quantity = ci.quantity := by
  induction list generalizing rows items with
  | nil =>
    rw [buildItems] at h
    obtain ⟨h1, h2⟩ := Prod.mk.injEq .. ▸ Option.some_inj.mp h
    rw [← h1]
    intro it hit
    exact absurd hit (List.not_mem_nil it)
  | cons item rest ih =>
    obtain ⟨stock, price, items', hfind, hprice, hrest, hitems⟩ := buildItems_cons_inv h
    subst hitems
    intro it hit
    rcases List.mem_cons.mp hit with h1 | h2
    · subst h1
      have hpid : stock.productId = item.productId := by
        simpa using List.find?_some hfind
      have hpf := hP stock (List.mem_of_find?_eq_some hfind)
      refine ⟨rfl, ?_, item, List.mem_cons_self .., rfl, rfl⟩
      show f item.productId = some price
      rw [← hpid, ← hpf, hprice]
    · have hP1 : ∀ r ∈ decrementFirst rows item.productId item.quantity,
          r.price = f r.productId := by
        intro r hr
        rcases mem_decrementFirst_of_find? hfind hr with h3 | h4
        · exact hP r h3
        · rw [h4]
          exact hP stock (List.mem_of_find?_eq_some hfind)
      obtain ⟨ha, hb, ci, hci, hc⟩ := ih hP1 hrest it h2
      exact ⟨ha, hb, ci, List.mem_cons_of_mem _ hci, hc⟩

theorem stockValid_of_find?_eq {list : List CartItem} {rows rows' : List FetchedStock}
    (h : ∀ i ∈ list, rows'.find? (fun p => p.productId == i.productId) =
      rows.find? (fun p => p.productId == i.productId)) :
    stockValid list rows' = stockValid list rows := by
  rw [stockValid, stockValid]
  refine all_congr_mem (fun i hi => ?_)
  rw [h i hi]

theorem buildItems_final_nonneg {list : List CartItem} {rows final : List FetchedStock}
    {items : List SaleItemRow}
    (hnd : (list.map (fun i => i.productId)).Nodup)
    (hval : stockValid list rows = true)
    (hpos : ∀ r ∈ rows, 0 ≤ r.quantity)
    (h : buildItems list rows = some (items, final)) :
    ∀ r ∈ final, 0 ≤ r.quantity := by
  induction list generalizing rows items with
  | nil =>
    rw [buildItems] at h
    obtain ⟨h1, h2⟩ := Prod.mk.injEq .. ▸ Option.some_inj.mp h
    rw [← h2]
    exact hpos
  | cons item rest ih =>
    obtain ⟨stock, price, items', hfind, hprice, hrest, hitems⟩ := buildItems_cons_inv h
    obtain ⟨⟨stock', hfind', hle⟩, hvtail⟩ := stockValid_cons_inv hval
    obtain rfl : stock' = stock := Option.some_inj.mp (hfind' ▸ hfind)
    rw [List.map_cons, List.nodup_cons] at hnd
    have hnotin : ∀ i ∈ rest, i.productId ≠ item.productId := by
      intro i hi heq
      exact hnd.1 (heq ▸ List.mem_map_of_mem (fun x => x.productId) hi)
    have hpos1 : ∀ r ∈ decrementFirst rows item.productId item.quantity,
        0 ≤ r.quantity := by
      intro r hr
      rcases mem_decrementFirst_of_find? hfind hr with h3 | h4
      · exact hpos r h3
      · rw [h4]
        simp only
        omega
    have hvtail1 : stockValid rest
        (decrementFirst rows item.productId item.quantity) = true := by
      rw [stockValid_of_find?_eq
        (fun i hi => find?_decrementFirst_ne rows item.quantity (hnotin i hi))]
      exact hvtail
    exact ih hnd.2 hvtail1 hpos1 hrest

theorem buildItems_final_find? {list : List CartItem} {rows final : List FetchedStock}
    {items : List SaleItemRow}
    (hnd : (list.map (fun i => i.productId)).Nodup)
    (h : buildItems list rows = some (items, final)) (pid : String) :
    final.find? (fun r => r.productId == pid) =
      match list.find? (fun ci => ci.productId == pid) with
      | some ci => (rows.find? (fun r => r.productId == pid)).map
          (fun r => { r with quantity := r.quantity - ci.quantity })
      | none => rows.find? (fun r => r.productId == pid) := by
  induction list generalizing rows items with
  | nil =>
    rw [buildItems] at h
    obtain ⟨h1, h2⟩ := Prod.mk.injEq .. ▸ Option.some_inj.mp h
    rw [← h2]
    rfl
  | cons item rest ih =>
    obtain ⟨stock, price, items', hfind, hprice, hrest, hitems⟩ := buildItems_cons_inv h
    rw [List.map_cons, List.nodup_cons] at hnd
    by_cases hpid : item.productId = pid
    · subst hpid
      rw [List.find?_cons_of_pos _ (by simp)]
      have hnone : rest.find? (fun ci => ci.productId == item.productId) = none := by
        rw [List.find?_eq_none]
        intro i hi hip
        apply hnd.1
        rw [← show i.productId = item.productId by simpa using hip]
        exact List.mem_map_of_mem (fun x => x.productId) hi
      have hih := ih hnd.2 hrest
      rw [hnone] at hih
      rw [hih]
      dsimp only
      rw [find?_decrementFirst_self rows item.productId item.quantity]
    · rw [List.find?_cons_of_neg _ (by simpa using hpid)]
      have hih := ih hnd.2 hrest
      rw [find?_decrementFirst_ne rows item.quantity
        (fun hh => hpid hh.symm)] at hih
      exact hih


theorem find?_update_of_any {stocks : List StockRow} {r : StockRow}
    (hany : stocks.any
      (fun s => s.productId == r.productId && s.locationId == r.locationId) = true) :
    (stocks.map (fun s =>
      if s.productId == r.productId && s.locationId == r.locationId then
        { s with quantity := r.quantity } else s)).find?
      (fun s => s.productId == r.productId && s.locationId == r.locationId) =
    some r := by
  induction stocks with
  | nil => simp at hany
  | cons y ys ih =>
    rw [List.map_cons]
    by_cases hy : (y.productId == r.productId && y.locationId == r.locationId) = true
    · rw [if_pos hy]
      rw [List.find?_cons_of_pos _ (by simpa using hy)]
      simp only [Bool.and_eq_true, beq_iff_eq] at hy
      obtain ⟨h1, h2⟩ := hy
      cases r
      simp_all
    · rw [if_neg hy]
      rw [List.find?_cons_of_neg _ (by simpa using hy)]
      rw [List.any_cons, Bool.or_eq_true] at hany
      rcases hany with h1 | h2
      · exact absurd h1 hy
      · exact ih h2

theorem upsertStock_find?_self (stocks : List StockRow) (r : StockRow) :
    (upsertStock stocks r).find?
      (fun s => s.productId == r.productId && s.locationId == r.locationId) =
      some r := by
  rw [upsertStock]
  split
  · next hany => exact find?_update_of_any hany
  · next hany =>
    rw [Bool.not_eq_true, List.any_eq_false] at hany
    rw [List.find?_append]
    have hnone : stocks.find?
        (fun s => s.productId == r.productId && s.locationId == r.locationId) = none :=
      List.find?_eq_none.mpr (fun s hs => by simpa using hany s hs)
    rw [hnone]
    simp [List.find?]

theorem upsertStock_find?_ne {stocks : List StockRow} {r : StockRow} {pid lid : String}
    (hne : ¬(pid = r.productId ∧ lid = r.locationId)) :
    (upsertStock stocks r).find? (fun s => s.productId == pid && s.locationId == lid) =
      stocks.find? (fun s => s.productId == pid && s.locationId == lid) := by
  rw [upsertStock]
  split
  · next hany =>
    rw [List.find?_map]
    have hcong : ∀ s : StockRow,
        ((fun s => s.productId == pid && s.locationId == lid)
          ((fun s =>
            if s.productId == r.productId && s.locationId == r.locationId then
              { s with quantity := r.quantity } else s) s)) =
        (fun s => s.productId == pid && s.locationId == lid) s := by
      intro s
      by_cases hs : (s.productId == r.productId && s.locationId == r.locationId) = true
      · simp only [Function.comp, hs, if_pos]
      · simp only [Function.comp, hs, if_neg, Bool.false_eq_true, if_false]
    rw [Function.comp_def, find?_congr_pred _ hcong]
    cases hf : stocks.find? (fun s => s.productId == pid && s.locationId == lid) with
    | none => rfl
    | some s =>
      have hps := List.find?_some hf
      simp only [Bool.and_eq_true, beq_iff_eq] at hps
      have hskey : (s.productId == r.productId && s.locationId == r.locationId) = false := by
        rcases Bool.eq_false_or_eq_true
            (s.productId == r.productId && s.locationId == r.locationId) with hb | hb
        · exfalso
          simp only [Bool.and_eq_true, beq_iff_eq] at hb
          exact hne ⟨hps.1 ▸ hb.1, hps.2 ▸ hb.2⟩
        · exact hb
      simp only [Option.map_some']
      congr 1
      rw [if_neg (by rw [hskey]; exact Bool.false_ne_true)]
  · next hany =>
    rw [List.find?_append]
    cases hf : stocks.find? (fun s => s.productId == pid && s.locationId == lid) with
    | none =>
      have hpr : (r.productId == pid && r.locationId == lid) = false := by
        rcases Bool.eq_false_or_eq_true
            (r.productId == pid && r.locationId == lid) with hb | hb
        · exfalso
          simp only [Bool.and_eq_true, beq_iff_eq] at hb
          exact hne ⟨hb.1.symm, hb.2.symm⟩
        · exact hb
      simp [List.find?, hpr]
    | some s => simp

theorem upsertStocks_nil (stocks : List StockRow) : upsertStocks stocks [] = stocks := rfl

theorem upsertStocks_cons (stocks : List StockRow) (r : FetchedStock)
    (rs : List FetchedStock) :
    upsertStocks stocks (r :: rs) =
      upsertStocks (upsertStock stocks ⟨r.productId, r.locationId, r.quantity⟩) rs := rfl

theorem mem_upsertStock {stocks : List StockRow} {r s' : StockRow}
    (h : s' ∈ upsertStock stocks r) :
    s' ∈ stocks ∨ s'.quantity = r.quantity := by
  rw [upsertStock] at h
  split at h
  · obtain ⟨s, hs, hfs⟩ := List.mem_map.mp h
    by_cases hkey : (s.productId == r.productId && s.locationId == r.locationId) = true
    · rw [if_pos hkey] at hfs
      right
      rw [← hfs]
    · rw [if_neg hkey] at hfs
      exact Or.inl (hfs ▸ hs)
  · rcases List.mem_append.mp h with h1 | h2
    · exact Or.inl h1
    · right
      rw [List.mem_singleton.mp h2]

theorem upsertStocks_nonneg {stocks : List StockRow} {rows : List FetchedStock}
    (hstocks : ∀ s ∈ stocks, 0 ≤ s.quantity) (hrows : ∀ r ∈ rows, 0 ≤ r.quantity) :
    ∀ s ∈ upsertStocks stocks rows, 0 ≤ s.quantity := by
  induction rows generalizing stocks with
  | nil => exact hstocks
  | cons r rs ih =>
    rw [upsertStocks_cons]
    refine ih (fun s hs => ?_) (fun x hx => hrows x (List.mem_cons_of_mem _ hx))
    rcases mem_upsertStock hs with h1 | h2
    · exact hstocks s h1
    · rw [h2]
      exact hrows r (List.mem_cons_self ..)

theorem find?_upsertStocks {rows : List FetchedStock} {stocks : List StockRow}
    (hnd : (rows.map (fun r => (r.productId, r.locationId))).Nodup) (pid lid : String) :
    (upsertStocks stocks rows).find?
      (fun s => s.productId == pid && s.locationId == lid) =
      match rows.find? (fun r => r.productId == pid && r.locationId == lid) with
      | some r => some ⟨r.productId, r.locationId, r.quantity⟩
      | none => stocks.find? (fun s => s.productId == pid && s.locationId == lid) := by
  induction rows generalizing stocks with
  | nil => rfl
  | cons r rs ih =>
    rw [List.map_cons, List.nodup_cons] at hnd
    rw [upsertStocks_cons]
    have hstep := @ih (upsertStock stocks ⟨r.productId, r.locationId, r.quantity⟩) hnd.2
    by_cases hkey : (r.productId == pid && r.locationId == lid) = true
    · simp only [Bool.and_eq_true, beq_iff_eq] at hkey
      obtain ⟨h1, h2⟩ := hkey
      subst h1
      subst h2
      rw [List.find?_cons_of_pos _ (by simp)]
      have hnone : rs.find?
          (fun x => x.productId == r.productId && x.locationId == r.locationId) = none := by
        rw [List.find?_eq_none]
        intro x hx hpx
        simp only [Bool.and_eq_true, beq_iff_eq] at hpx
        exact hnd.1 (by
          rw [← hpx.1, ← hpx.2]
          exact List.mem_map_of_mem (fun r => (r.productId, r.locationId)) hx)
      rw [hnone] at hstep
      rw [hstep]
      exact upsertStock_find?_self stocks ⟨r.productId, r.locationId, r.quantity⟩
    · rw [List.find?_cons_of_neg _ (by simpa using hkey)]
      rw [hstep]
      have hne : ¬(pid = r.productId ∧ lid = r.locationId) := by
        intro hcon
        apply hkey
        simp [hcon.1, hcon.2]
      cases hrs : rs.find? (fun x => x.productId == pid && x.locationId == lid) with
      | none => exact upsertStock_find?_ne hne
      | some x => rfl

/-! ### Facts about the in-transaction stock fetch -/

theorem findStocks_price (st : DBState) (productIds : List String)
    (locationId : String) :
    ∀ r ∈ findStocks st productIds locationId,
      r.price = catalogPrice st r.productId := by
  intro r hr
  rw [findStocks] at hr
  obtain ⟨s, hs, rfl⟩ := List.mem_map.mp hr
  rfl

theorem findStocks_locationId (st : DBState) (productIds : List String)
    (locationId : String) :
    ∀ r ∈ findStocks st productIds locationId, r.locationId = locationId := by
  intro r hr
  rw [findStocks] at hr
  obtain ⟨s, hs, rfl⟩ := List.mem_map.mp hr
  have := (List.mem_filter.mp hs).2
  simp only [Bool.and_eq_true, beq_iff_eq] at this
  exact this.2

theorem findStocks_productId_mem (st : DBState) (productIds : List String)
    (locationId : String) :
    ∀ r ∈ findStocks st productIds locationId, productIds.contains r.productId = true := by
  intro r hr
  rw [findStocks] at hr
  obtain ⟨s, hs, rfl⟩ := List.mem_map.mp hr
  have := (List.mem_filter.mp hs).2
  simp only [Bool.and_eq_true] at this
  exact this.1

theorem findStocks_quantity_nonneg {st : DBState} {productIds : List String}
    {locationId : String} (h : ∀ s ∈ st.stocks, 0 ≤ s.quantity) :
    ∀ r ∈ findStocks st productIds locationId, 0 ≤ r.quantity := by
  intro r hr
  rw [findStocks] at hr
  obtain ⟨s, hs, rfl⟩ := List.mem_map.mp hr
  exact h s (List.mem_filter.mp hs).1

/-- Fold of the line totals equals the sum of the mapped totals. -/
theorem foldl_total_eq_sum (l : List SaleItemRow) :
    l.foldl (fun acc item => acc + item.total) 0 = (l.map (fun it => it.total)).sum := by
  suffices h : ∀ acc : Int, l.foldl (fun acc item => acc + item.total) acc =
      acc + (l.map (fun it => it.total)).sum by
    simpa using h 0
  induction l with
  | nil => intro acc; simp
  | cons x xs ih =>
    intro acc
    rw [List.foldl_cons, ih, List.map_cons, List.sum_cons]
    ring

/-! ### Example database states used by concrete witnesses -/

/-- A small store: one product P1 priced 100 cents, five units at L1,
one registered user S1. -/
def exSt : DBState :=
  { products := [⟨"P1", "Tote bag", "canvas", 100⟩]
    stocks := [⟨"P1", "L1", 5⟩]
    users := [⟨"S1", "Alice Vendor"⟩]
    sales := []
    saleItems := [] }

/-- The committed state after selling three units of P1 at L1 in `exSt`. -/
def exStSold : DBState :=
  { products := [⟨"P1", "Tote bag", "canvas", 100⟩]
    stocks := [⟨"P1", "L1", 2⟩]
    users := [⟨"S1", "Alice Vendor"⟩]
    sales := [⟨"sale-0", "S1", "L1", .completed, 300⟩]
    saleItems := [⟨"sale-0", "P1", 3, 100, 300⟩] }

/-- C1: on success, `totalPrice` is the sum of quantity × unit price over
the sale's items, each item's `total` is its quantity × price, and each
item's price is the catalog price read in the transaction snapshot. -/
theorem C1_total_correctness {st st' : DBState} {sellerId locationId : String}
    {list : List CartItem} {sale : SaleRow} {items : List SaleItemRow}
    (h : createSale st sellerId locationId list = (st', .ok (sale, items))) :
    sale.totalPrice = (items.map (fun it => it.quantity * it.price)).sum ∧
    ∀ it ∈ items, it.total = it.quantity * it.price ∧
      catalogPrice st it.productId = some it.price := by
  obtain ⟨hdup, hval, ⟨u, hfind⟩, items0, finalRows, hbuild, hsale, hitems, hst⟩ :=
    createSale_ok_inv h
  have hspec := buildItems_items_spec
    (findStocks_price st (list.map (fun item => item.productId)) locationId) hbuild
  constructor
  · rw [hsale, hitems]
    show items0.foldl (fun acc item => acc + item.total) 0 = _
    rw [foldl_total_eq_sum, List.map_map]
    refine congrArg List.sum (List.map_congr_left (fun it0 hit0 => ?_))
    exact (hspec it0 hit0).1
  · intro it hit
    rw [hitems] at hit
    obtain ⟨it0, hit0, rfl⟩ := List.mem_map.mp hit
    obtain ⟨ha, hb, _⟩ := hspec it0 hit0
    exact ⟨ha, hb⟩

/-- Witness for C1 at the concrete success scenario. -/
theorem C1_total_correctness_witness :
    (⟨"sale-0", "S1", "L1", .completed, 300⟩ : SaleRow).totalPrice =
      (([⟨"sale-0", "P1", 3, 100, 300⟩] : List SaleItemRow).map
        (fun it => it.quantity * it.price)).sum ∧
    ∀ it ∈ ([⟨"sale-0", "P1", 3, 100, 300⟩] : List SaleItemRow),
      it.total = it.quantity * it.price ∧
      catalogPrice exSt it.productId = some it.price :=
  @C1_total_correctness exSt exStSold "S1" "L1" [⟨"P1", 3⟩]
    ⟨"sale-0", "S1", "L1", .completed, 300⟩
    [⟨"sale-0", "P1", 3, 100, 300⟩] (by rfl)

/-- C2: every error outcome leaves the persisted state exactly as it was:
no Stock row changed and no Sale or SaleItem row was created. -/
theorem C2_atomicity {st : DBState} {sellerId locationId : String}
    {list : List CartItem} {e : AppErr}
    (h : (createSale st sellerId locationId list).2 = .error e) :
    (createSale st sellerId locationId list).1.stocks = st.stocks ∧
    (createSale st sellerId locationId list).1.sales = st.sales ∧
    (createSale st sellerId locationId list).1.saleItems = st.saleItems ∧
    (createSale st sellerId locationId list).1 = st := by
  rw [createSale_fst_of_error h]
  exact ⟨rfl, rfl, rfl, rfl⟩

/-- Witness for C2 at a concrete insufficient-stock failure. -/
theorem C2_atomicity_witness :
    (createSale exSt "S1" "L1" [⟨"P1", 6⟩]).1.stocks = exSt.stocks ∧
    (createSale exSt "S1" "L1" [⟨"P1", 6⟩]).1.sales = exSt.sales ∧
    (createSale exSt "S1" "L1" [⟨"P1", 6⟩]).1.saleItems = exSt.saleItems ∧
    (createSale exSt "S1" "L1" [⟨"P1", 6⟩]).1 = exSt :=
  @C2_atomicity exSt "S1" "L1" [⟨"P1", 6⟩]
    ⟨.conflitError, .unspecified, "Can't create sale. Missing stock."⟩ (by rfl)

/-- One `createSale` call preserves nonnegativity of all stock quantities. -/
theorem createSale_stocks_nonneg {st : DBState} {sellerId locationId : String}
    {list : List CartItem} (h : ∀ r ∈ st.stocks, 0 ≤ r.quantity) :
    ∀ r ∈ (createSale st sellerId locationId list).1.stocks, 0 ≤ r.quantity := by
  cases hres : (createSale st sellerId locationId list).2 with
  | error e =>
    rw [createSale_fst_of_error hres]
    exact h
  | ok v =>
    obtain ⟨sale, items⟩ := v
    have heq : createSale st sellerId locationId list =
        ((createSale st sellerId locationId list).1, .ok (sale, items)) := by
      rw [← hres]
    obtain ⟨hdup, hval, ⟨u, hfind⟩, items0, finalRows, hbuild, hsale, hitems, hst⟩ :=
      createSale_ok_inv heq
    rw [hst]
    refine upsertStocks_nonneg h ?_
    exact buildItems_final_nonneg
      (hasRepeatedIds_eq_false_iff.mp hdup) hval
      (findStocks_quantity_nonneg h) hbuild

/-- C3: starting from a state with all stock quantities ≥ 0, any sequence
of `createSale` calls (successful or failed) leaves every committed stock
quantity ≥ 0. -/
theorem C3_no_negative_stock {st : DBState} {reqs : List SaleRequest}
    (h : ∀ r ∈ st.stocks, 0 ≤ r.quantity) :
    ∀ r ∈ (runSales st reqs).stocks, 0 ≤ r.quantity := by
  induction reqs generalizing st with
  | nil => exact h
  | cons req rest ih =>
    rw [runSales, List.foldl_cons]
    exact ih (createSale_stocks_nonneg h)

/-- Witness for C3: two back-to-back sales of three units each against a
stock of five (the second fails), ending at quantity 2 ≥ 0. -/
theorem C3_no_negative_stock_witness :
    (runSales exSt
      [⟨"S1", "L1", [⟨"P1", 3⟩]⟩, ⟨"S1", "L1", [⟨"P1", 3⟩]⟩]).stocks =
      [⟨"P1", "L1", 2⟩] ∧
    (0 : Int) ≤ (⟨"P1", "L1", 2⟩ : StockRow).quantity :=
  ⟨by rfl,
    @C3_no_negative_stock exSt
      [⟨"S1", "L1", [⟨"P1", 3⟩]⟩, ⟨"S1", "L1", [⟨"P1", 3⟩]⟩]
      (by intro r hr; rcases List.mem_singleton.mp hr with rfl; norm_num)
      ⟨"P1", "L1", 2⟩ (by decide)⟩

/-- `find?` only depends on the predicate's behaviour on members. -/
theorem find?_congr_mem {α : Type} {l : List α} {p q : α → Bool}
    (h : ∀ a ∈ l, p a = q a) : l.find? p = l.find? q := by
  induction l with
  | nil => rfl
  | cons x xs ih =>
    have hx := h x (List.mem_cons_self ..)
    by_cases hp : p x = true
    · rw [List.find?_cons_of_pos _ hp, List.find?_cons_of_pos _ (hx ▸ hp)]
    · rw [List.find?_cons_of_neg _ hp, List.find?_cons_of_neg _ (hx ▸ hp)]
      exact ih (fun a ha => h a (List.mem_cons_of_mem _ ha))

/-- The in-transaction fetch, searched by productId, is the first stock
row with that (productId, locationId) key, joined with its price. -/
theorem findStocks_find?_eq (st : DBState) {productIds : List String}
    (locationId : String) {pid : String} (hpid : productIds.contains pid = true) :
    (findStocks st productIds locationId).find? (fun r => r.productId == pid) =
      (st.stocks.find?
        (fun s => s.productId == pid && s.locationId == locationId)).map
        (fun s => ⟨s.productId, s.locationId, s.quantity,
          (st.products.find? (fun p => p.productId == s.productId)).map
            (fun p => p.price)⟩) := by
  rw [findStocks, List.find?_map, Function.comp_def]
  rw [show (fun s : StockRow =>
      ((⟨s.productId, s.locationId, s.quantity,
        (st.products.find? (fun p => p.productId == s.productId)).map
          (fun p => p.price)⟩ : FetchedStock)).productId == pid) =
      (fun s : StockRow => s.productId == pid) from rfl]
  rw [find?_filter_eq]
  refine congrArg _ (find?_congr_pred _ (fun s => ?_))
  by_cases hs : (s.productId == pid) = true
  · have : s.productId = pid := beq_iff_eq.mp hs
    rw [hs, this, hpid]
    simp
  · rw [Bool.not_eq_true] at hs
    rw [hs]
    simp

theorem findStocks_keys_nodup {st : DBState} {productIds : List String}
    {locationId : String}
    (hkeys : (st.stocks.map (fun s => (s.productId, s.locationId))).Nodup) :
    ((findStocks st productIds locationId).map
      (fun r => (r.productId, r.locationId))).Nodup := by
  rw [findStocks, List.map_map]
  have hsub : List.Sublist
      (st.stocks.filter
        (fun s => productIds.contains s.productId && s.locationId == locationId))
      st.stocks := List.filter_sublist st.stocks
  exact hkeys.sublist (hsub.map (fun s : StockRow => (s.productId, s.locationId)))

theorem buildItems_final_key_facts {list : List CartItem}
    {rows final : List FetchedStock} {items : List SaleItemRow}
    (h : buildItems list rows = some (items, final)) :
    ∀ r ∈ final, ∃ s ∈ rows, s.productId = r.productId ∧
      s.locationId = r.locationId := by
  intro r hr
  have hshape := buildItems_final_shape h
  have : (r.productId, r.locationId, r.price) ∈
      rows.map (fun r => (r.productId, r.locationId, r.price)) := by
    rw [← hshape]
    exact List.mem_map_of_mem _ hr
  obtain ⟨s, hs, heq⟩ := List.mem_map.mp this
  simp only [Prod.mk.injEq] at heq
  exact ⟨s, hs, heq.1, heq.2.1⟩

theorem buildItems_final_keys {list : List CartItem}
    {rows final : List FetchedStock} {items : List SaleItemRow}
    (h : buildItems list rows = some (items, final)) :
    final.map (fun r => (r.productId, r.locationId)) =
      rows.map (fun r => (r.productId, r.locationId)) := by
  have hshape := buildItems_final_shape h
  have hfin : final.map (fun r => (r.productId, r.locationId)) =
      (final.map (fun r => (r.productId, r.locationId, r.price))).map
        (fun t => (t.1, t.2.1)) := by
    rw [List.map_map]
    rfl
  have hrows : rows.map (fun r => (r.productId, r.locationId)) =
      (rows.map (fun r => (r.productId, r.locationId, r.price))).map
        (fun t => (t.1, t.2.1)) := by
    rw [List.map_map]
    rfl
  rw [hfin, hrows, hshape]

/-- C4: a successful sale decrements exactly the cart's stock rows at the
sale's location by the requested quantities and leaves every other stock
key unchanged (stock primary keys assumed unique, as enforced by the
composite primary key of the `stock` table). -/
theorem C4_stock_delta {st st' : DBState} {sellerId locationId : String}
    {list : List CartItem} {sale : SaleRow} {items : List SaleItemRow}
    (hkeys : (st.stocks.map (fun s => (s.productId, s.locationId))).Nodup)
    (h : createSale st sellerId locationId list = (st', .ok (sale, items))) :
    (∀ item ∈ list, stockQty st' item.productId locationId =
      (stockQty st item.productId locationId).map (fun q => q - item.quantity)) ∧
    (∀ pid lid, lid ≠ locationId ∨ pid ∉ list.map (fun i => i.productId) →
      stockQty st' pid lid = stockQty st pid lid) := by
  obtain ⟨hdup, hval, ⟨u, hfind⟩, items0, finalRows, hbuild, hsale, hitems, hst⟩ :=
    createSale_ok_inv h
  have hnd := hasRepeatedIds_eq_false_iff.mp hdup
  have hfinkeys := buildItems_final_keys hbuild
  have hfinnodup : (finalRows.map (fun r => (r.productId, r.locationId))).Nodup := by
    rw [hfinkeys]
    exact findStocks_keys_nodup hkeys
  have hloc : ∀ r ∈ finalRows, r.locationId = locationId := by
    intro r hr
    obtain ⟨s, hs, h1, h2⟩ := buildItems_final_key_facts hbuild r hr
    rw [← h2]
    exact findStocks_locationId st _ locationId s hs
  have hpmem : ∀ r ∈ finalRows,
      (list.map (fun item => item.productId)).contains r.productId = true := by
    intro r hr
    obtain ⟨s, hs, h1, h2⟩ := buildItems_final_key_facts hbuild r hr
    rw [← h1]
    exact findStocks_productId_mem st _ locationId s hs
  have hstocks' : st'.stocks = upsertStocks st.stocks finalRows := by rw [hst]
  constructor
  · intro item hitem
    have hpid : (list.map (fun item => item.productId)).contains item.productId = true :=
      List.elem_eq_true_of_mem
        (List.mem_map_of_mem (fun item => item.productId) hitem)
    rw [stockQty, hstocks', find?_upsertStocks hfinnodup]
    have hfinloc : finalRows.find?
        (fun r => r.productId == item.productId && r.locationId == locationId) =
        finalRows.find? (fun r => r.productId == item.productId) := by
      refine find?_congr_mem (fun r hr => ?_)
      rw [hloc r hr]
      simp
    rw [hfinloc, buildItems_final_find? hnd hbuild]
    have hci : list.find? (fun ci => ci.productId == item.productId) = some item := by
      cases hfl : list.find? (fun ci => ci.productId == item.productId) with
      | none =>
        exact absurd (by simp : (item.productId == item.productId) = true)
          (by simpa using List.find?_eq_none.mp hfl item hitem)
      | some ci =>
        have hcimem := List.mem_of_find?_eq_some hfl
        have hcip : ci.productId = item.productId := by
          simpa using List.find?_some hfl
        rw [List.inj_on_of_nodup_map hnd hcimem hitem hcip]
    rw [hci]
    dsimp only
    rw [findStocks_find?_eq st locationId hpid, stockQty]
    cases hsf : st.stocks.find?
        (fun s => s.productId == item.productId && s.locationId == locationId) with
    | none => rfl
    | some s => rfl
  · intro pid lid hcase
    rw [stockQty, hstocks', find?_upsertStocks hfinnodup]
    have hnone : finalRows.find?
        (fun r => r.productId == pid && r.locationId == lid) = none := by
      rw [List.find?_eq_none]
      intro r hr hpred
      simp only [Bool.and_eq_true, beq_iff_eq] at hpred
      rcases hcase with hlid | hpid
      · exact hlid (by rw [← hpred.2, hloc r hr])
      · apply hpid
        have hc := hpmem r hr
        rw [hpred.1] at hc
        exact List.mem_of_elem_eq_true hc
    rw [hnone]
    rfl

/-- Witness for C4 at the spec's success scenario (five in stock, three
sold, two left; P1 decremented, every other key untouched). -/
theorem C4_stock_delta_witness :
    (∀ item ∈ ([⟨"P1", 3⟩] : List CartItem),
      stockQty exStSold item.productId "L1" =
        (stockQty exSt item.productId "L1").map (fun q => q - item.quantity)) ∧
    (∀ pid lid, lid ≠ "L1" ∨
        pid ∉ ([⟨"P1", 3⟩] : List CartItem).map (fun i => i.productId) →
      stockQty exStSold pid lid = stockQty exSt pid lid) :=
  @C4_stock_delta exSt exStSold "S1" "L1" [⟨"P1", 3⟩]
    ⟨"sale-0", "S1", "L1", .completed, 300⟩
    [⟨"sale-0", "P1", 3, 100, 300⟩] (by decide) (by rfl)

/-- C6: a cart with a repeated productId is rejected with the
`request.format` BadRequest by a check that neither reads nor writes the
store (the same rejection happens from every state, and the state is
returned unchanged); a cart with pairwise-distinct productIds is never
rejected with a BadRequest. -/
theorem C6_duplicate_rejection (st : DBState) (sellerId locationId : String)
    (list : List CartItem) :
    (¬ (list.map (fun item => item.productId)).Nodup →
      ∀ st2 : DBState, createSale st2 sellerId locationId list =
        (st2, .error ⟨.badRequestError, .reqFormat,
          "Repeated productId not allowed."⟩)) ∧
    ((list.map (fun item => item.productId)).Nodup →
      ∀ e, (createSale st sellerId locationId list).2 = .error e →
        e.cls ≠ .badRequestError) := by
  constructor
  · intro hdup st2
    exact createSale_eq_of_dup (hasRepeatedIds_iff.mpr hdup)
  · intro hnd e he
    have hdup : hasRepeatedIds (list.map (fun item => item.productId)) = false :=
      hasRepeatedIds_eq_false_iff.mpr hnd
    by_cases hval : stockValid list
        (findStocks st (list.map (fun item => item.productId)) locationId) = true
    · cases hfind : st.users.find? (fun u => u.userId == sellerId) with
      | none =>
        rw [createSale_eq_of_no_seller hdup hval hfind] at he
        obtain rfl := Except.error.inj he
        exact fun hc => ErrClass.noConfusion hc
      | some u =>
        cases hbuild : buildItems list
            (findStocks st (list.map (fun item => item.productId)) locationId) with
        | none =>
          rw [createSale_eq_of_build_none hdup hval hfind hbuild] at he
          obtain rfl := Except.error.inj he
          exact fun hc => ErrClass.noConfusion hc
        | some pr =>
          obtain ⟨items0, finalRows⟩ := pr
          rw [createSale_eq_of_build_some hdup hval hfind hbuild] at he
          exact absurd he (by simp)
    · rw [Bool.not_eq_true] at hval
      rw [createSale_eq_of_invalid hdup hval] at he
      obtain rfl := Except.error.inj he
      exact fun hc => ErrClass.noConfusion hc

/-- Witness for C6: the duplicate cart from the spec is rejected from the
example state with the `request.format` BadRequest, and the
distinct-productId cart never sees a BadRequest. -/
theorem C6_duplicate_rejection_witness :
    (createSale exSt "S1" "L1" [⟨"P1", 1⟩, ⟨"P1", 2⟩] =
      (exSt, .error ⟨.badRequestError, .reqFormat,
        "Repeated productId not allowed."⟩)) ∧
    (∀ e, (createSale exSt "S1" "L1" [⟨"P1", 3⟩]).2 = .error e →
      e.cls ≠ .badRequestError) :=
  ⟨(C6_duplicate_rejection exSt "S1" "L1" [⟨"P1", 1⟩, ⟨"P1", 2⟩]).1
      (by decide) exSt,
    (C6_duplicate_rejection exSt "S1" "L1" [⟨"P1", 3⟩]).2 (by decide)⟩

/-- C7 counterexample: a cart naming P2, which is absent from the catalog
(and hence, by the stock→product foreign key, has no stock row), is
rejected with the `ConflitError` ("Can't create sale. Missing stock.",
HTTP 409) — the very same error value produced for insufficient quantity
of an existing product — not with any NotFound error. -/
theorem C7_unknown_product_counterexample :
    ((createSale exSt "S1" "L1" [⟨"P2", 1⟩]).2 =
      .error ⟨.conflitError, .unspecified, "Can't create sale. Missing stock."⟩) ∧
    ((createSale exSt "S1" "L1" [⟨"P1", 6⟩]).2 =
      .error ⟨.conflitError, .unspecified, "Can't create sale. Missing stock."⟩) ∧
    ErrClass.conflitError ≠ ErrClass.notFoundError ∧
    requestErrorStatus .conflitError = 409 ∧
    requestErrorStatus .notFoundError = 404 := by
  refine ⟨by rfl, by rfl, ?_, rfl, rfl⟩
  exact fun hc => ErrClass.noConfusion hc

/-- C7 (amended): when some cart item's productId has no stock row at the
location — in particular when the product is absent from the catalog
altogether, since the foreign key forbids stock rows for nonexistent
products — `createSale` fails with the same Conflict error used for
insufficient stock; no distinct ProductNotFound error exists on this path. -/
theorem C7_unknown_product_conflict {st : DBState} {sellerId locationId : String}
    {list : List CartItem} {item : CartItem}
    (hnd : (list.map (fun item => item.productId)).Nodup)
    (hitem : item ∈ list)
    (hnostock : ∀ s ∈ st.stocks,
      s.productId ≠ item.productId ∨ s.locationId ≠ locationId) :
    createSale st sellerId locationId list =
      (st, .error ⟨.conflitError, .unspecified, "Can't create sale. Missing stock."⟩) := by
  have hdup : hasRepeatedIds (list.map (fun item => item.productId)) = false :=
    hasRepeatedIds_eq_false_iff.mpr hnd
  refine createSale_eq_of_invalid hdup ?_
  have hnone : (findStocks st (list.map (fun item => item.productId))
      locationId).find? (fun p => p.productId == item.productId) = none := by
    rw [List.find?_eq_none]
    intro r hr hpred
    rw [findStocks] at hr
    obtain ⟨s, hs, rfl⟩ := List.mem_map.mp hr
    have hsmem := (List.mem_filter.mp hs).1
    have hsloc := (List.mem_filter.mp hs).2
    simp only [Bool.and_eq_true, beq_iff_eq] at hsloc
    rcases hnostock s hsmem with h1 | h2
    · exact h1 (by simpa using hpred)
    · exact h2 hsloc.2
  rw [stockValid, List.all_eq_false]
  refine ⟨item, hitem, ?_⟩
  rw [hnone]
  exact fun hc => Bool.noConfusion hc

/-- Witness for the amended C7 at the concrete unknown-product cart. -/
theorem C7_unknown_product_conflict_witness :
    createSale exSt "S1" "L1" [⟨"P2", 1⟩] =
      (exSt, .error ⟨.conflitError, .unspecified,
        "Can't create sale. Missing stock."⟩) :=
  @C7_unknown_product_conflict exSt "S1" "L1" [⟨"P2", 1⟩] ⟨"P2", 1⟩
    (by decide) (by decide) (by decide)

/-- C8: at the concrete unknown-seller input the transaction commits no
mutation (the returned state is the pre-call state), but the error object
is a plain `AppError` (base class) carrying code `resource.not_found` —
and `requestErrorHandler`'s constructor switch sends a plain `AppError`
through its default branch as a 500 ServerError response, not the 404
NotFound response the claim (and the error's own code) calls for. -/
theorem C8_unknown_seller_dispatch :
    createSale exSt "ghost" "L1" [⟨"P1", 1⟩] =
      (exSt, .error ⟨.appError, .notFound, "User not found."⟩) ∧
    requestErrorStatus .appError = 500 ∧
    requestErrorStatus .notFoundError = 404 :=
  ⟨by rfl, rfl, rfl⟩

/-- On either branch, `updateProduct` never touches the sale ledger. -/
theorem updateProduct_ledger_eq (st : DBState) (productId : String)
    (name : Option String) (price : Option Int) (description : Option String) :
    (updateProduct st productId name price description).1.sales = st.sales ∧
    (updateProduct st productId name price description).1.saleItems = st.saleItems := by
  rw [updateProduct]
  cases hf : st.products.find? (fun p => p.productId == productId) with
  | none => exact ⟨rfl, rfl⟩
  | some p => exact ⟨rfl, rfl⟩

/-- C9: the unit prices and line totals persisted by a successful sale are
snapshots — updating any product's catalog price afterwards leaves every
Sale row (including its totalPrice) and every SaleItem row (including its
price and total) exactly as they were, and the new sale's rows survive
verbatim. -/
theorem C9_price_snapshot {st st1 : DBState} {sellerId locationId : String}
    {list : List CartItem} {sale : SaleRow} {items : List SaleItemRow}
    {pid : String} {newName : Option String} {newPrice : Option Int}
    {newDescription : Option String}
    (hok : createSale st sellerId locationId list = (st1, .ok (sale, items))) :
    (updateProduct st1 pid newName newPrice newDescription).1.sales = st1.sales ∧
    (updateProduct st1 pid newName newPrice newDescription).1.saleItems =
      st1.saleItems ∧
    sale ∈ (updateProduct st1 pid newName newPrice newDescription).1.sales ∧
    ∀ it ∈ items,
      it ∈ (updateProduct st1 pid newName newPrice newDescription).1.saleItems := by
  obtain ⟨hsales, hsaleItems⟩ :=
    updateProduct_ledger_eq st1 pid newName newPrice newDescription
  obtain ⟨hdup, hval, ⟨u, hfind⟩, items0, finalRows, hbuild, hsale, hitems, hst⟩ :=
    createSale_ok_inv hok
  refine ⟨hsales, hsaleItems, ?_, ?_⟩
  · rw [hsales, hst]
    exact List.mem_append_right _ (List.mem_singleton_self _)
  · intro it hit
    rw [hsaleItems, hst]
    exact List.mem_append_right _ (hitems ▸ hit)

/-- Witness for C9: after the concrete sale, doubling P1's catalog price
leaves the persisted sale and its item rows unchanged. -/
theorem C9_price_snapshot_witness :
    (updateProduct exStSold "P1" none (some 200) none).1.sales = exStSold.sales ∧
    (updateProduct exStSold "P1" none (some 200) none).1.saleItems =
      exStSold.saleItems ∧
    (⟨"sale-0", "S1", "L1", .completed, 300⟩ : SaleRow) ∈
      (updateProduct exStSold "P1" none (some 200) none).1.sales ∧
    ∀ it ∈ ([⟨"sale-0", "P1", 3, 100, 300⟩] : List SaleItemRow),
      it ∈ (updateProduct exStSold "P1" none (some 200) none).1.saleItems :=
  @C9_price_snapshot exSt exStSold "S1" "L1" [⟨"P1", 3⟩]
    ⟨"sale-0", "S1", "L1", .completed, 300⟩
    [⟨"sale-0", "P1", 3, 100, 300⟩]
    "P1" none (some 200) none (by rfl)

/-- C10: an empty cart from an existing seller is not rejected — the
duplicate check and the stock validation pass vacuously, and the call
commits a completed Sale with totalPrice 0 and no SaleItems while the
stock table is left untouched. -/
theorem C10_empty_cart {st : DBState} {sellerId locationId : String} {u : UserRow}
    (hseller : st.users.find? (fun u => u.userId == sellerId) = some u) :
    createSale st sellerId locationId [] =
      ({ st with sales := st.sales ++
          [⟨freshSaleId st, sellerId, locationId, .completed, 0⟩] },
        .ok (⟨freshSaleId st, sellerId, locationId, .completed, 0⟩, [])) := by
  have hbuild : buildItems ([] : List CartItem)
      (findStocks st (([] : List CartItem).map (fun item => item.productId))
        locationId) =
      some (([] : List SaleItemRow),
        findStocks st (([] : List CartItem).map (fun item => item.productId))
          locationId) := rfl
  rw [createSale_eq_of_build_some (by rfl) (by rfl) hseller hbuild]
  have hstocks : upsertStocks st.stocks
      (findStocks st (([] : List CartItem).map (fun item => item.productId))
        locationId) = st.stocks := by
    have : findStocks st (([] : List CartItem).map (fun item => item.productId))
        locationId = [] := by
      rw [findStocks]
      have : st.stocks.filter (fun s =>
          (([] : List CartItem).map (fun item => item.productId)).contains
            s.productId && s.locationId == locationId) = [] := by
        rw [List.filter_eq_nil_iff]
        intro s hs
        simp [List.contains]
      rw [this]
      rfl
    rw [this]
    rfl
  rw [hstocks]
  simp

/-- Witness for C10: the empty cart sold by S1 from the example state. -/
theorem C10_empty_cart_witness :
    createSale exSt "S1" "L1" [] =
      ({ exSt with sales := exSt.sales ++
          [⟨freshSaleId exSt, "S1", "L1", .completed, 0⟩] },
        .ok (⟨freshSaleId exSt, "S1", "L1", .completed, 0⟩, [])) :=
  @C10_empty_cart exSt "S1" "L1" ⟨"S1", "Alice Vendor"⟩ (by rfl)

end PowerAnalyzer
